import Mathlib

/-
Verification of the calyptia-go-s3-client core against its design notes.

The Go sources are shallowly embedded: pure helpers (pattern handling,
reader selection) become Lean functions on `List Char` / `List Nat`
(Go strings are byte/char sequences; `strings.Split`, `strings.Join`,
`filepath.Base`, `filepath.Ext` are embedded structurally so that the
kernel can evaluate them), the `bufio.Scanner` loop becomes a fuelled
step function, the goroutine bodies of `ReadFile` / `ReadFiles` become
denotations recording the values sent on each channel, and the
`ReadFiles` coordinator becomes a small-step transition relation.
External collaborators (the S3 paginator, `compress/gzip`,
`doublestar.PathMatch`) are modelled at their observable interface, as
documented on each definition.
-/

namespace S3Client

/-- Go error values reachable in this client, as an explicit datatype.
`eof` stands for `io.EOF`, `unexpectedEOF` for `io.ErrUnexpectedEOF`,
`gzipHdr` for `gzip.ErrHeader`, `gzipChecksum` for `gzip.ErrChecksum`,
`tooLong` for `bufio.ErrTooLong`; `msg s` is any other error value carrying
text `s` (fetch failures, page failures, close failures, ...), and
`wrapped m e` is `fmt.Errorf(m ++ "%w", e)`. -/
inductive GErr where
  | eof
  | unexpectedEOF
  | gzipHdr
  | gzipChecksum
  | tooLong
  | msg (s : String)
  | wrapped (m : String) (e : GErr)
deriving DecidableEq, Repr

/-- Embeds Go `strings.Split(s, sep)` for a one-character separator:
splits around every occurrence of `sep`; the empty string yields one
empty segment, and leading/trailing separators yield empty segments. -/
def splitOnSep (sep : Char) : List Char → List (List Char)
  | [] => [[]]
  | c :: rest =>
    match splitOnSep sep rest with
    | [] => [[]]
    | h :: t => if c == sep then [] :: h :: t else (c :: h) :: t

/-- Embeds Go `strings.Join(parts, sep)` for a one-character separator. -/
def joinSep (sep : Char) : List (List Char) → List Char
  | [] => []
  | [x] => x
  | x :: y :: t => x ++ sep :: joinSep sep (y :: t)

/-- Embeds `strings.ContainsAny(s, "*?[")`, the wildcard test used inside
`GetDirPrefix` (part_005, lines 108-110). -/
def containsWildcard (s : List Char) : Bool :=
  s.any (fun c => c == '*' || c == '?' || c == '[')

/-- Embeds `IsGlobPattern` (part_005): `strings.ContainsAny(s, "*?[\\")`. -/
def IsGlobPattern (s : String) : Bool :=
  s.data.any (fun c => c == '*' || c == '?' || c == '[' || c == '\\')

/-- Embeds the index-scanning loop of `GetDirPrefix` (part_005 lines 106-112):
`for i := len(parts) - 1; i >= 0; i-- { if ContainsAny(parts[i], "*?[") { lastWildcardIndex = i } }`.
`wildcardScan parts k acc` runs the loop for indices `k-1, k-2, ..., 0`
starting from accumulator `acc`; the Go loop is `wildcardScan parts parts.length (-1)`.
Because the loop has no `break`, the final accumulator is the index of the
FIRST wildcard segment, despite the variable's name in the source. -/
def wildcardScan (parts : List (List Char)) : Nat → Int → Int
  | 0, acc => acc
  | i + 1, acc => wildcardScan parts i (if containsWildcard (parts.getD i []) then (i : Int) else acc)

/-- Embeds `GetDirPrefix` (part_005 lines 102-121).  `filepath.Separator`
is `/` on the target platform.  Splits on `/`, runs the wildcard scan, and
joins the segments strictly before the resulting index; with no wildcard
the whole expression is returned. -/
def GetDirPrefixFn (glob : String) : String :=
  let parts := splitOnSep '/' glob.data
  let lastWildcardIndex := wildcardScan parts parts.length (-1)
  if 0 ≤ lastWildcardIndex then
    String.mk (joinSep '/' (parts.take lastWildcardIndex.toNat))
  else
    glob

/-- Spec-side rendering of claim C3's words: split on the separator, scan
segments FROM THE END for the LAST segment index containing a wildcard, and
join the segments strictly before that index; with no wildcard return the
pattern unchanged.  Stated for comparison with `GetDirPrefixFn`. -/
def dirPrefixSpecLast (glob : String) : String :=
  let parts := splitOnSep '/' glob.data
  match (List.range parts.length).reverse.find? (fun i => containsWildcard (parts.getD i [])) with
  | some i => String.mk (joinSep '/' (parts.take i))
  | none => glob

/-- Model of the ten-byte gzip member header as written by `gzip.Writer`
(magic bytes `1f 8b`, method `8` = DEFLATE, empty flags, zero mtime/xfl,
unknown OS `255`). -/
def gzipHeaderBytes : List Nat := [31, 139, 8, 0, 0, 0, 0, 0, 0, 255]

/-- Model checksum standing in for the DEFLATE framing and CRC32 of the
gzip body: the byte sum modulo 256. -/
def gzipCheck (payload : List Nat) : Nat := payload.sum % 256

/-- Model of `gzip.Writer` output: header, payload, trailing checksum.
The DEFLATE encoding itself is abstracted to an invertible framing; the
client under verification never inspects the body, only the header-parse
outcome and the read-time success or failure, which this model keeps. -/
def gzipCompress (payload : List Nat) : List Nat :=
  gzipHeaderBytes ++ payload ++ [gzipCheck payload]

/-- Model of the header parse performed by `gzip.NewReader`: an input
shorter than the 10-byte header fails `io.ReadFull` with `io.EOF` (empty
input) or `io.ErrUnexpectedEOF` (non-empty short input); wrong
magic/method bytes give `gzip.ErrHeader`; otherwise the reader is
constructed. -/
def gzipNewReaderErr (data : List Nat) : Option GErr :=
  if data.length = 0 then some GErr.eof
  else if data.length < 10 then some GErr.unexpectedEOF
  else if data.take 3 = [31, 139, 8] then none
  else some GErr.gzipHdr

/-- Model of reading a constructed `gzip.Reader` to exhaustion: the body
after the header must be a payload plus its matching checksum, otherwise
the read fails mid-stream (corrupt data after a valid header). -/
def gzipReadAll (data : List Nat) : Except GErr (List Nat) :=
  let body := data.drop 10
  match body.getLast? with
  | none => Except.error GErr.unexpectedEOF
  | some ck =>
    if gzipCheck body.dropLast = ck then Except.ok body.dropLast
    else Except.error GErr.gzipChecksum

/-- Embeds the `.gz`/`.gzip` branch of `GetFileReader` (part_005 lines
58-81), composed with reading the returned reader to exhaustion: buffer
the whole input (`io.ReadAll`, which cannot fail on an in-memory list),
call `gzip.NewReader`; if it fails exactly with `gzip.ErrHeader`, fall
back to the original buffered bytes; on any other constructor error fail;
otherwise read the gzip stream. -/
def gzBranchReadAll (body : List Nat) : Except GErr (List Nat) :=
  match gzipNewReaderErr body with
  | some e => if e = GErr.gzipHdr then Except.ok body else Except.error e
  | none => gzipReadAll body

/-- Statement of claim C5's fallback clause as written: applying the
selected `.gz` reader to any input that lacks a valid gzip header (the
header parse does not succeed) yields the input unchanged, without
error. -/
def claimC5Fallback : Prop :=
  ∀ B : List Nat, gzipNewReaderErr B ≠ none → gzBranchReadAll B = Except.ok B

/-- State of a `bufio.Scanner` over an in-memory reader. `bufLen` is
`len(s.buf)`, `window` is the unconsumed slice `s.buf[s.start:s.end]`
(the model keeps the window shifted to the front, which `Scan` also does
whenever space is needed; only the read granularity can differ, not the
emitted tokens or the terminal outcome), `inp` is the unread remainder of
the reader, `tail` is what the reader returns once `inp` is exhausted
(`io.EOF` for a normal stream), and `sErr` is the sticky `s.err`. -/
structure ScanSt where
  bufLen : Nat
  window : List Nat
  inp : List Nat
  tail : GErr
  sErr : Option GErr

/-- Terminal outcome of the scan loop: `clean` is `scanner.Err() == nil`,
`fail e` is `scanner.Err() == e`, and `noFuel` marks model fuel
exhaustion (never reached with the fuel supplied by `scanAll`). -/
inductive ScanTerm where
  | clean
  | fail (e : GErr)
  | noFuel
deriving DecidableEq, Repr

/-- Index of the first newline byte, `bytes.IndexByte(data, '\n')`. -/
def findNewline : List Nat → Option Nat
  | [] => none
  | b :: rest => if b = 10 then some 0 else (findNewline rest).map (fun n => n + 1)

/-- Embeds `dropCR`: strips one trailing carriage return. -/
def dropCRmodel (l : List Nat) : List Nat :=
  if l.getLast? = some 13 then l.dropLast else l

/-- Embeds `bufio.ScanLines(data, atEOF)`: returns the advance and the
token, `none` when more data is needed (or at a final empty input). -/
def scanLinesGo (data : List Nat) (atEOF : Bool) : Nat × Option (List Nat) :=
  if atEOF ∧ data = [] then (0, none)
  else
    match findNewline data with
    | some i => (i + 1, some (dropCRmodel (data.take i)))
    | none => if atEOF then (data.length, some (dropCRmodel data)) else (0, none)

/-- Embeds the loop body of `bufio.Scanner.Scan`, iterated to the end of
the stream: try the split function on the buffered window; emit its token
if any; otherwise terminate if the reader already failed (`io.EOF` means
a clean end); otherwise, if the buffer is full, either report
`bufio.ErrTooLong` (buffer already at the max token size) or grow it to
`min(max(2*len, 4096 when len = 0), maxTok)`; finally read more input
(an in-memory reader returns bytes while it has them, then `tail`). -/
def scanGo (maxTok : Nat) : Nat → ScanSt → List (List Nat) × ScanTerm
  | 0, _ => ([], ScanTerm.noFuel)
  | fuel + 1, s =>
    match (if 0 < s.window.length ∨ s.sErr.isSome
           then scanLinesGo s.window s.sErr.isSome else (0, none)) with
    | (adv, some tok) =>
      let r := scanGo maxTok fuel { s with window := s.window.drop adv }
      (tok :: r.1, r.2)
    | (_, none) =>
      match s.sErr with
      | some e => ([], if e = GErr.eof then ScanTerm.clean else ScanTerm.fail e)
      | none =>
        if s.window.length = s.bufLen ∧ maxTok ≤ s.bufLen then
          ([], ScanTerm.fail GErr.tooLong)
        else
          let newLen := if s.window.length = s.bufLen
            then min (if s.bufLen = 0 then 4096 else 2 * s.bufLen) maxTok
            else s.bufLen
          match s.inp with
          | [] => scanGo maxTok fuel { s with bufLen := newLen, sErr := some s.tail }
          | _ =>
            let n := min (newLen - s.window.length) s.inp.length
            scanGo maxTok fuel
              { s with bufLen := newLen,
                       window := s.window ++ s.inp.take n,
                       inp := s.inp.drop n }

/-- Runs a whole `bufio.Scanner` session: initial buffer capacity
`bufCap` (the `len(buf[0:cap(buf)])` set by `Scanner.Buffer`, or 0 for
`bufio.NewScanner`), maximum token size `maxTok`, reader content and
reader tail result.  The fuel `2 * length + 8` dominates the iteration
count: every iteration emits a token (advance at least 1), consumes at
least one input byte, records the reader's tail, or terminates. -/
def scanAll (bufCap maxTok : Nat) (content : List Nat) (tail : GErr) :
    List (List Nat) × ScanTerm :=
  scanGo maxTok (2 * content.length + 8) ⟨bufCap, [], content, tail, none⟩

/-- Embeds the scan of Go `filepath.Ext` run on the reversed path: stop
at a path separator, return the suffix from the first dot found. The
`seen` accumulator holds the already-scanned suffix in original order. -/
def extRevScan : List Char → List Char → List Char
  | [], _ => []
  | c :: rest, seen =>
    if c = '/' then []
    else if c = '.' then c :: seen
    else extRevScan rest (c :: seen)

/-- Embeds `strings.ToLower(filepath.Ext(filename))` from `GetFileReader`
(part_005 line 55). -/
def extLower (path : String) : List Char :=
  (extRevScan path.data.reverse []).map Char.toLower

/-- Model of reading an `archive/tar` reader on which `Next` was never
called: its current-file reader starts with zero remaining bytes, so
every read returns `io.EOF` at once and the stream decodes to nothing. -/
def tarReadAll (_body : List Nat) : List Nat := []

/-- Embeds the reader dispatch of `GetFileReader` (part_005 lines 52-95)
composed with reading the selected reader to exhaustion: `.gz`/`.gzip`
take the gzip branch, `.tar` the tar branch, anything else passes the
body through unchanged. -/
def readDecoded (filename : String) (body : List Nat) : Except GErr (List Nat) :=
  let ext := extLower filename
  if ext = ".gz".data ∨ ext = ".gzip".data then gzBranchReadAll body
  else if ext = ".tar".data then Except.ok (tarReadAll body)
  else Except.ok body

/-- One fetched S3 object as observed by the client: the declared content
type, the raw body bytes, and the outcomes of closing the body stream and
the decoded reader during cleanup (effects of the external transport,
supplied as part of the scenario). -/
structure S3Object where
  contentType : String
  content : List Nat
  bodyCloseErr : Option GErr
  readerCloseErr : Option GErr
deriving DecidableEq

/-- Embeds the `Message` struct of part_000 (lines 42-47): a capture
timestamp and a record; the Go `map[string]string` literal becomes an
association list of its three entries. -/
structure Message where
  time : Nat
  record : List (String × String)
deriving DecidableEq

/-- Go `string(bytes)`: bytes become characters one for one. -/
def bytesToStr (b : List Nat) : String := String.mk (b.map Char.ofNat)

/-- Embeds the record literal of part_000 lines 216-224. -/
def mkMessageRecord (bucket file rawLine : String) : List (String × String) :=
  [("_raw", rawLine), ("bucket", bucket), ("file", file)]

/-- Messages sent by the scan loop of a `ReadFiles` per-key task: the
`i`-th emitted line is wrapped with `time.Now()` at emission, modelled by
stamping it with `clock i`. -/
def msgsFromToks (clock : Nat → Nat) (bucket file : String) :
    Nat → List (List Nat) → List Message
  | _, [] => []
  | i, tok :: rest =>
    ⟨clock i, mkMessageRecord bucket file (bytesToStr tok)⟩ ::
      msgsFromToks clock bucket file (i + 1) rest

/-- Error sent on the error channel for a scan outcome, if any. -/
def scanErrList : ScanTerm → List GErr
  | ScanTerm.clean => []
  | ScanTerm.fail e => [e]
  | ScanTerm.noFuel => [GErr.msg "scan model out of fuel"]

/-- Observable result of one `ReadFiles` per-key goroutine: the messages
sent on the output channel, the errors sent on `errChan` in send order,
and the errors that are only logged. -/
structure TaskDen where
  msgs : List Message
  errsSent : List GErr
  logged : List GErr
deriving DecidableEq

/-- Default `bufio.MaxScanTokenSize`. -/
def defaultMaxScanTokenSize : Nat := 65536

/-- Embeds the `ReadFiles` per-key goroutine body (part_000 lines
169-235).  Fetch error: sent on `errChan`, stop.  Reader-selection
error: sent, then the deferred body close may send its own failure.
Otherwise the decoded content is scanned with a default `bufio.Scanner`;
a scan error is sent; the deferred reader close (lines 207-212) only
LOGS its failure, while the deferred body close (lines 187-195) SENDS
its failure on `errChan` (defers run in LIFO order). -/
def processFile (bucket filename : String) (fetch : Except GErr S3Object)
    (clock : Nat → Nat) : TaskDen :=
  match fetch with
  | Except.error e => ⟨[], [e], []⟩
  | Except.ok obj =>
    match readDecoded filename obj.content with
    | Except.error e => ⟨[], e :: obj.bodyCloseErr.toList, []⟩
    | Except.ok decoded =>
      let scanned := scanAll 0 defaultMaxScanTokenSize decoded GErr.eof
      ⟨msgsFromToks clock bucket filename 0 scanned.1,
       scanErrList scanned.2 ++ obj.bodyCloseErr.toList,
       obj.readerCloseErr.toList⟩

/-- Observable result of the `ReadFile` goroutine: lines sent on the
output channel and errors sent on the error channel in send order. -/
structure ReadFileDen where
  lines : List String
  errsSent : List GErr
deriving DecidableEq

/-- Embeds the `ReadFile` goroutine body (client.go lines 117-199): like
the per-key task but with a caller-supplied initial buffer size and hard
cap (`scanner.Buffer(make([]byte, 0, initialBufferSize), maxBufferSize)`),
and with BOTH deferred closes sending their failures on the error channel
(body close: lines 142-151; reader close: lines 160-167; LIFO order runs
the reader close first). -/
def readFileDen (filename : String) (fetch : Except GErr S3Object)
    (initialBufferSize maxBufferSize : Nat) : ReadFileDen :=
  match fetch with
  | Except.error e => ⟨[], [e]⟩
  | Except.ok obj =>
    match readDecoded filename obj.content with
    | Except.error e => ⟨[], e :: obj.bodyCloseErr.toList⟩
    | Except.ok decoded =>
      let scanned := scanAll initialBufferSize maxBufferSize decoded GErr.eof
      ⟨scanned.1.map bytesToStr,
       scanErrList scanned.2 ++ obj.readerCloseErr.toList ++ obj.bodyCloseErr.toList⟩

/-- Tokens scanned by a `ReadFiles` per-key task (empty when fetch or
reader selection fails before scanning). -/
def taskToks (filename : String) (fetch : Except GErr S3Object) : List (List Nat) :=
  match fetch with
  | Except.error _ => []
  | Except.ok obj =>
    match readDecoded filename obj.content with
    | Except.error _ => []
    | Except.ok decoded => (scanAll 0 defaultMaxScanTokenSize decoded GErr.eof).1

/-- Statement of claim C8 as written: in both `ReadFile` and the
`ReadFiles` per-key task, a failure of either cleanup close (body stream
or decoded reader) is only logged and never changes what is sent through
the error-reporting path. -/
def claimC8CloseNeverEscalated : Prop :=
  (∀ bucket filename : String, ∀ obj : S3Object, ∀ clock : Nat → Nat,
    (processFile bucket filename (Except.ok obj) clock).errsSent =
      (processFile bucket filename
        (Except.ok { obj with bodyCloseErr := none, readerCloseErr := none }) clock).errsSent) ∧
  (∀ filename : String, ∀ obj : S3Object, ∀ ib mb : Nat,
    (readFileDen filename (Except.ok obj) ib mb).errsSent =
      (readFileDen filename
        (Except.ok { obj with bodyCloseErr := none, readerCloseErr := none }) ib mb).errsSent)

/-- Statement of claim C6's success half as written, at one buffer
configuration: an input consisting of a single line of exactly
`maxBufferSize` bytes (newline-terminated) is emitted successfully, with
no error sent. -/
def claimC6ExactMax (initialBufferSize maxBufferSize : Nat) (line : List Nat) : Prop :=
  readFileDen "f.txt" (Except.ok ⟨"text/plain", line ++ [10], none, none⟩)
      initialBufferSize maxBufferSize
    = ⟨[bytesToStr line], []⟩

/-- Embeds Go `filepath.Base` on the target platform: the empty path
gives `.`; trailing separators are stripped; the element after the last
separator is returned; a path of only separators gives `/`. -/
def filepathBase (path : String) : String :=
  if path.data = [] then "."
  else
    let stripped := (path.data.reverse.dropWhile (fun c => c == '/')).reverse
    let afterSlash := (stripped.reverse.takeWhile (fun c => c != '/')).reverse
    if afterSlash = [] then "/" else String.mk afterSlash

/-- The static context added by `ListFiles` when paging fails (client.go
line 110): it names neither the bucket nor the pattern. -/
def listingWrapMsg : String := "error listing files from s3: "

/-- Boolean list-prefix test (structural, kernel-evaluable). -/
def charsHavePre : List Char → List Char → Bool
  | [], _ => true
  | _ :: _, [] => false
  | a :: as, b :: bs => a == b && charsHavePre as bs

/-- Boolean substring test: does `needle` occur contiguously in the
haystack? -/
def charsHaveInfix (needle : List Char) : List Char → Bool
  | [] => charsHavePre needle []
  | b :: bs => charsHavePre needle (b :: bs) || charsHaveInfix needle bs

/-- All context text carried by an error value: the format strings of its
wrapping chain and its own message text (sentinel errors carry none). -/
def errTextChars : GErr → List Char
  | GErr.msg s => s.data
  | GErr.wrapped m e => m.data ++ errTextChars e
  | _ => []

/-- Does the context text of an error mention the given string? -/
def errMentions (e : GErr) (sub : String) : Bool :=
  charsHaveInfix sub.data (errTextChars e)

/-- Embeds the paging loop of `listAndMatch` inside `ListFiles`
(client.go lines 85-99): pages are consumed in order, matching keys are
appended in listing order, and a failing page stops the loop, returning
the files accumulated so far together with the page error. -/
def listAndMatch (matchFn : String → Bool) :
    List (Except GErr (List String)) → List String → List String × Option GErr
  | [], files => (files, none)
  | Except.error e :: _, files => (files, some e)
  | Except.ok page :: rest, files => listAndMatch matchFn rest (files ++ page.filter matchFn)

/-- Embeds the match closure `ListFiles` passes to `listAndMatch`
(client.go lines 102-108): glob patterns are evaluated with
`doublestar.PathMatch` — supplied abstractly as `patMatch`, where `none`
means the library returned an error, which counts as no match
(`err == nil && matches`) — and non-glob patterns compare base names. -/
def listMatcher (patMatch : String → String → Option Bool) (pattern : String)
    (objectName : String) : Bool :=
  if IsGlobPattern pattern then
    match patMatch pattern objectName with
    | some b => b
    | none => false
  else
    filepathBase pattern == filepathBase objectName

/-- Embeds `ListFiles` (client.go lines 66-114): runs the paging loop
with the matcher (the derived listing prefix only selects which pages the
store serves, so the page sequence arrives as an input here); a page
error is wrapped in the static context message and returned together
with whatever file list `listAndMatch` produced. -/
def ListFilesModel (patMatch : String → String → Option Bool)
    (pattern : String) (pages : List (Except GErr (List String))) :
    List String × Option GErr :=
  let r := listAndMatch (listMatcher patMatch pattern) pages []
  match r.2 with
  | some e => (r.1, some (GErr.wrapped listingWrapMsg e))
  | none => (r.1, none)

/-- Statement of claim C2 as written: whenever fetching a listing page
fails, the error comes back wrapped with context identifying the bucket
and the pattern, and the accompanying file list is empty (all partial
results discarded, all-or-nothing).  The bucket cannot even occur in
`ListFilesModel`'s result — the Go code never threads it into the error —
so the claim is stated over every bucket string. -/
def claimC2AllOrNothing : Prop :=
  ∀ patMatch : String → String → Option Bool, ∀ bucket pattern : String,
    ∀ pages : List (Except GErr (List String)),
    (ListFilesModel patMatch pattern pages).2 ≠ none →
    (ListFilesModel patMatch pattern pages).1 = [] ∧
    (∃ e, (ListFilesModel patMatch pattern pages).2 = some e ∧
      errMentions e bucket = true ∧ errMentions e pattern = true)

/-- Per-key work script for the coordinator model: how many messages the
task will send to the caller's channel and which errors it will then send
on `errChan`, read off the task's denotation. -/
structure TaskScript where
  emits : Nat
  errs : List GErr
deriving DecidableEq, Repr

/-- Script of a per-key task, read off its denotation. -/
def scriptOf (d : TaskDen) : TaskScript := ⟨d.msgs.length, d.errsSent⟩

/-- Runtime state of one spawned per-key goroutine: pending channel
emissions, pending `errChan` sends, and whether its outermost defer
(`wg.Done(); <-semaphore`) has run. -/
structure TaskSt where
  emits : Nat
  errs : List GErr
  finished : Bool
deriving DecidableEq, Repr

/-- A freshly spawned task. -/
def startTask (sc : TaskScript) : TaskSt := ⟨sc.emits, sc.errs, false⟩

/-- A task whose outermost defer has run. -/
def doneTask : TaskSt := ⟨0, [], true⟩

/-- Phase of the `ReadFiles` main goroutine: inside the spawn loop,
blocked in the `select` loop, or returned with a result. -/
inductive MainPhase where
  | spawning
  | selecting
  | returned (res : Option GErr)
deriving DecidableEq, Repr

/-- State of the `ReadFiles` coordinator (part_000 lines 150-261):
`files` holds the per-key scripts, `cap` the semaphore capacity, `idx`
the next file index to dispatch, `tasks` the goroutines spawned so far
(one per dispatched file, in order), `phase` the main goroutine's
position. -/
structure RFSt where
  files : List TaskScript
  cap : Nat
  idx : Nat
  tasks : List TaskSt
  phase : MainPhase
deriving DecidableEq, Repr

/-- Number of tasks currently holding a semaphore slot: spawned and not
yet terminated (the slot is released by the task's outermost defer). -/
def inFlight (s : RFSt) : Nat := (s.tasks.filter (fun t => !t.finished)).length

/-- Embeds `isCritical` (part_000 lines 144-148): the default fatal-error
policy treats no error as fatal. -/
def isCritical (_e : GErr) : Bool := false

/-- Embeds `if concurrency == 0 { concurrency = 1 }` (part_000 lines
155-157): only an exact zero is normalized. -/
def normalizeConcurrency (c : Int) : Int := if c = 0 then 1 else c

/-- Model of `make(chan struct{}, n)`: a negative capacity is a runtime
panic (`makechan: size out of range`), modelled as `none`. -/
def makeChanCap (n : Int) : Option Nat := if 0 ≤ n then some n.toNat else none

/-- The semaphore capacity `ReadFiles` ends up with for a requested
concurrency value (part_000 lines 150-164); `none` means the call
panics. -/
def readFilesPoolSize (c : Int) : Option Nat := makeChanCap (normalizeConcurrency c)

/-- Statement of claim C1's concurrency normalization as written: every
requested value at most zero is treated as capacity one (and in
particular does not panic). -/
def claimC1CapNormalized : Prop := ∀ c : Int, c ≤ 0 → readFilesPoolSize c = some 1

/-- Initial coordinator state for a batch. -/
def initRF (files : List TaskScript) (cap : Nat) : RFSt :=
  ⟨files, cap, 0, [], MainPhase.spawning⟩

/-- Small-step transitions of the `ReadFiles` coordinator and its
goroutines (part_000 lines 150-261).  The consumer of the caller-supplied
output channel is assumed always ready, so a message emission is an
autonomous task step; `errChan` is unbuffered and received ONLY by the
main goroutine's `select` loop, so an error send requires the main
goroutine to be selecting (this is the admission-gate deadlock's
mechanism); the `done` channel is served by the waiter goroutine — which
starts only after the spawn loop ends — once every spawned task has run
its outermost defer.  External cancellation is not modelled: the claims
concern uncancelled runs. -/
inductive Step : RFSt → RFSt → Prop where
  | spawn (s : RFSt) (sc : TaskScript) :
      s.phase = MainPhase.spawning →
      s.files.get? s.idx = some sc →
      inFlight s < s.cap →
      Step s { s with idx := s.idx + 1, tasks := s.tasks ++ [startTask sc] }
  | endSpawn (s : RFSt) :
      s.phase = MainPhase.spawning →
      s.idx = s.files.length →
      Step s { s with phase := MainPhase.selecting }
  | emit (s : RFSt) (i : Nat) (t : TaskSt) :
      s.tasks.get? i = some t →
      t.finished = false →
      0 < t.emits →
      Step s { s with tasks := s.tasks.set i { t with emits := t.emits - 1 } }
  | errSend (s : RFSt) (i : Nat) (t : TaskSt) (e : GErr) (rest : List GErr) :
      s.phase = MainPhase.selecting →
      s.tasks.get? i = some t →
      t.finished = false →
      t.emits = 0 →
      t.errs = e :: rest →
      Step s { s with tasks := s.tasks.set i { t with errs := rest },
                      phase := if isCritical e then MainPhase.returned (some e)
                               else MainPhase.selecting }
  | finish (s : RFSt) (i : Nat) (t : TaskSt) :
      s.tasks.get? i = some t →
      t.finished = false →
      t.emits = 0 →
      t.errs = [] →
      Step s { s with tasks := s.tasks.set i { t with finished := true } }
  | doneRecv (s : RFSt) :
      s.phase = MainPhase.selecting →
      s.idx = s.files.length →
      (∀ t ∈ s.tasks, t.finished = true) →
      Step s { s with phase := MainPhase.returned none }

/-- Reachability of coordinator states. -/
def Reach (a b : RFSt) : Prop := Relation.ReflTransGen Step a b

/-- The fetch failure used in the deadlock scenarios. -/
def fetchFailErr : GErr := GErr.msg "fetch failed"

/-- A healthy one-line object used in the deadlock scenarios. -/
def okObj : S3Object := ⟨"text/plain", [104, 10], none, none⟩

/-- Claim C9 scenario: two keys under concurrency 1, the first key's
fetch fails.  Scripts are read off the per-key denotations. -/
def files9 : List TaskScript :=
  [scriptOf (processFile "b" "k1.txt" (Except.error fetchFailErr) (fun n => n)),
   scriptOf (processFile "b" "k2.txt" (Except.ok okObj) (fun n => n))]

/-- Claim C7 scenario: one of three keys fails its fetch, concurrency 1. -/
def files7 : List TaskScript :=
  [scriptOf (processFile "b" "k1.txt" (Except.error fetchFailErr) (fun n => n)),
   scriptOf (processFile "b" "k2.txt" (Except.ok okObj) (fun n => n)),
   scriptOf (processFile "b" "k3.txt" (Except.ok okObj) (fun n => n))]

/-- The state reached after the coordinator admits and spawns the first
(failing) task of a two-or-more key batch under capacity 1: the main
goroutine is blocked acquiring a slot for the second key, while the first
task is blocked sending its error on `errChan`, which nobody reads yet. -/
def stuckRF (files : List TaskScript) (sc : TaskScript) : RFSt :=
  { initRF files 1 with idx := 1, tasks := [startTask sc] }

/-- Sequential-run intermediate state: the first `k` keys fully
processed, the spawn loop about to dispatch key `k`. -/
def midRF (files : List TaskScript) (k : Nat) : RFSt :=
  ⟨files, 1, k, List.replicate k doneTask, MainPhase.spawning⟩

/-- Sequential-run final state: every key processed, call returned nil. -/
def finalRF (files : List TaskScript) : RFSt :=
  ⟨files, 1, files.length, List.replicate files.length doneTask,
    MainPhase.returned none⟩

/- ===================================================================
   Theorems and supporting lemmas
   =================================================================== -/

theorem wildcardScan_of_none (parts : List (List Char)) (k : Nat)
    (h : ∀ j, j < k → containsWildcard (parts.getD j []) = false) :
    ∀ acc, wildcardScan parts k acc = acc := by
  induction k with
  | zero => intro acc; rfl
  | succ m ih =>
    intro acc
    have hm : containsWildcard (parts.getD m []) = false := h m (Nat.lt_succ_self m)
    simp only [wildcardScan, hm, Bool.false_eq_true, if_false]
    exact ih (fun j hj => h j (Nat.lt_succ_of_lt hj)) acc

theorem wildcardScan_of_first (parts : List (List Char)) (i : Nat)
    (hi : containsWildcard (parts.getD i []) = true)
    (hmin : ∀ j, j < i → containsWildcard (parts.getD j []) = false) :
    ∀ k acc, i < k → wildcardScan parts k acc = (i : Int) := by
  intro k
  induction k with
  | zero => intro acc h; exact absurd h (Nat.not_lt_zero i)
  | succ m ih =>
    intro acc hik
    rcases Nat.lt_succ_iff_lt_or_eq.mp hik with hlt | heq
    · simp only [wildcardScan]
      exact ih _ hlt
    · subst heq
      simp only [wildcardScan, hi, if_true]
      exact wildcardScan_of_none parts i hmin _

theorem wildcardScan_eq_findIdx (parts : List (List Char)) :
    wildcardScan parts parts.length (-1) =
      if parts.any (fun p => containsWildcard p) then
        ((parts.findIdx (fun p => containsWildcard p) : Nat) : Int)
      else
        -1 := by
  by_cases h : parts.any (fun p => containsWildcard p) = true
  · rw [if_pos h]
    have hex : ∃ x ∈ parts, containsWildcard x = true := by
      simpa [List.any_eq_true] using h
    have hlt : parts.findIdx (fun p => containsWildcard p) < parts.length :=
      List.findIdx_lt_length.mpr hex
    have hfi := (List.findIdx_eq hlt).mp rfl
    apply wildcardScan_of_first
    · have hgd : parts.getD (parts.findIdx (fun p => containsWildcard p)) []
          = parts[parts.findIdx (fun p => containsWildcard p)] := by
        simp [List.getD_eq_getElem?_getD, List.getElem?_eq_getElem hlt]
      rw [hgd]
      simpa using hfi.1
    · intro j hj
      have hjlt : j < parts.length := Nat.lt_trans hj hlt
      have hgd : parts.getD j [] = parts[j] := by
        simp [List.getD_eq_getElem?_getD, List.getElem?_eq_getElem hjlt]
      rw [hgd]
      simpa using hfi.2 j hj
    · exact hlt
  · rw [if_neg h]
    apply wildcardScan_of_none
    intro j hj
    have hall : ∀ x ∈ parts, containsWildcard x = false := by
      intro x hx
      by_contra hxw
      exact h (List.any_eq_true.mpr ⟨x, hx, by simpa using hxw⟩)
    have hgd : parts.getD j [] = parts[j] := by
      simp [List.getD_eq_getElem?_getD, List.getElem?_eq_getElem hj]
    rw [hgd]
    exact hall _ (List.getElem_mem hj)

theorem GetDirPrefixFn_eq (glob : String) :
    GetDirPrefixFn glob =
      if (splitOnSep '/' glob.data).any (fun p => containsWildcard p) then
        String.mk (joinSep '/'
          ((splitOnSep '/' glob.data).take
            ((splitOnSep '/' glob.data).findIdx (fun p => containsWildcard p))))
      else
        glob := by
  unfold GetDirPrefixFn
  simp only [wildcardScan_eq_findIdx]
  by_cases h : (splitOnSep '/' glob.data).any (fun p => containsWildcard p) = true
  · rw [if_pos h, if_pos h, if_pos (Int.natCast_nonneg _)]
    simp
  · rw [if_neg h, if_neg h, if_neg (by decide)]

/-- Claim C3, counterexample.  The claim says `GetDirPrefix` joins the
segments strictly before the LAST wildcard segment.  On the pattern
`a/*/b/*/c.txt` (wildcards in segments 1 and 3) the code returns `a`, the
join of the segments before the FIRST wildcard segment, not `a/*/b` as
the claim requires, because the scanning loop in the source never breaks
and therefore ends on the smallest wildcard index. -/
theorem claim_c3_counterexample :
    GetDirPrefixFn "a/*/b/*/c.txt" = "a" ∧
    dirPrefixSpecLast "a/*/b/*/c.txt" = "a/*/b" ∧
    GetDirPrefixFn "a/*/b/*/c.txt" ≠ dirPrefixSpecLast "a/*/b/*/c.txt" := by
  refine ⟨by decide, by decide, by decide⟩

/-- Claim C3, amended: for every pattern containing at least one wildcard
character among `* ? [` in some segment, `GetDirPrefix` splits the pattern
on the path separator and returns the joined prefix of all segments
strictly before the FIRST segment index containing a wildcard character
(empty string if the first segment already contains a wildcard); for every
pattern with no wildcard in any segment it returns the pattern unchanged. -/
theorem claim_c3_amended (glob : String) :
    GetDirPrefixFn glob =
      if (splitOnSep '/' glob.data).any (fun p => containsWildcard p) then
        String.mk (joinSep '/'
          ((splitOnSep '/' glob.data).take
            ((splitOnSep '/' glob.data).findIdx (fun p => containsWildcard p))))
      else
        glob :=
  GetDirPrefixFn_eq glob

/-- Claim C4, confirmed: for every pattern `P` in which segment `i`
contains a wildcard character (`* ? [`) and no segment with a smaller
index contains one, `GetDirPrefix P` equals the join of the segments
strictly before `i`. -/
theorem claim_c4_first_wildcard_prefix (glob : String) (i : Nat)
    (hlen : i < (splitOnSep '/' glob.data).length)
    (hi : containsWildcard ((splitOnSep '/' glob.data).getD i []) = true)
    (hmin : ∀ j, j < i → containsWildcard ((splitOnSep '/' glob.data).getD j []) = false) :
    GetDirPrefixFn glob = String.mk (joinSep '/' ((splitOnSep '/' glob.data).take i)) := by
  have hie : (splitOnSep '/' glob.data).getD i [] = (splitOnSep '/' glob.data)[i] := by
    simp [List.getD_eq_getElem?_getD, List.getElem?_eq_getElem hlen]
  have hany : (splitOnSep '/' glob.data).any (fun p => containsWildcard p) = true := by
    refine List.any_eq_true.mpr ⟨(splitOnSep '/' glob.data)[i], List.getElem_mem hlen, ?_⟩
    rw [← hie]; exact hi
  have hidx : (splitOnSep '/' glob.data).findIdx (fun p => containsWildcard p) = i := by
    refine (List.findIdx_eq hlen).mpr ⟨by rw [← hie]; exact hi, ?_⟩
    intro j hji
    have hjl : j < (splitOnSep '/' glob.data).length := Nat.lt_trans hji hlen
    have := hmin j hji
    rwa [List.getD_eq_getElem?_getD, List.getElem?_eq_getElem hjl] at this
  rw [GetDirPrefixFn_eq, if_pos hany, hidx]

/-- Claim C4, witness: the theorem applied to the repository's own test
vector `dir/subdir/*/file.txt` with first wildcard segment index 2. -/
theorem claim_c4_witness :
    GetDirPrefixFn "dir/subdir/*/file.txt" = "dir/subdir" := by
  have h := claim_c4_first_wildcard_prefix "dir/subdir/*/file.txt" 2
    (by decide) (by decide) (by decide)
  exact h.trans (by decide)

theorem gzipCompress_length (B : List Nat) :
    (gzipCompress B).length = B.length + 11 := by
  simp [gzipCompress, gzipHeaderBytes]

/-- Claim C5, counterexample.  The claim requires the `.gz` reader to pass
any input lacking a valid gzip header through unchanged; but
`gzip.NewReader` fails with `io.EOF` on empty input and with
`io.ErrUnexpectedEOF` on inputs shorter than the 10-byte header, neither
of which is `gzip.ErrHeader`, so `GetFileReader` surfaces those errors
instead of falling back. -/
theorem claim_c5_counterexample :
    ¬ claimC5Fallback ∧
    gzBranchReadAll [] = Except.error GErr.eof ∧
    gzBranchReadAll [104, 105] = Except.error GErr.unexpectedEOF := by
  refine ⟨fun h => ?_, by rfl, by rfl⟩
  have := h [] (by decide)
  simp [gzBranchReadAll, gzipNewReaderErr] at this

/-- Claim C5, amended: the gzip round-trip holds (decoding a compressed
payload named `*.gz` yields exactly the original bytes); the silent
fallback to the buffered bytes applies exactly when the input is at least
as long as a gzip header but its magic/method bytes are wrong (the
`gzip.ErrHeader` case); inputs shorter than a gzip header surface the
underlying read error (`io.EOF` when empty, `io.ErrUnexpectedEOF`
otherwise) instead of falling back; and a corrupt stream after a valid
header is surfaced as an error when the returned reader is read. -/
theorem claim_c5_amended :
    (∀ B : List Nat, gzBranchReadAll (gzipCompress B) = Except.ok B) ∧
    (∀ B : List Nat, 10 ≤ B.length → B.take 3 ≠ [31, 139, 8] →
      gzBranchReadAll B = Except.ok B) ∧
    (∀ B : List Nat, B.length < 10 →
      gzBranchReadAll B =
        Except.error (if B.length = 0 then GErr.eof else GErr.unexpectedEOF)) ∧
    (∀ payload : List Nat, ∀ ck : Nat, gzipCheck payload ≠ ck →
      gzBranchReadAll (gzipHeaderBytes ++ payload ++ [ck]) =
        Except.error GErr.gzipChecksum) := by
  refine ⟨?_, ?_, ?_, ?_⟩
  · intro B
    have hhdr : gzipNewReaderErr (gzipCompress B) = none := by
      have hlen : (gzipCompress B).length = B.length + 11 := gzipCompress_length B
      simp only [gzipNewReaderErr, hlen]
      rw [if_neg (by omega), if_neg (by omega), if_pos]
      simp [gzipCompress, gzipHeaderBytes]
    simp only [gzBranchReadAll, hhdr]
    simp only [gzipReadAll, gzipCompress, gzipHeaderBytes]
    simp [List.getLast?_concat, List.dropLast_concat, List.append_assoc]
  · intro B hlen htake
    simp only [gzBranchReadAll, gzipNewReaderErr]
    rw [if_neg (by omega), if_neg (by omega), if_neg htake]
    simp
  · intro B hlen
    by_cases hz : B.length = 0
    · simp only [gzBranchReadAll, gzipNewReaderErr]
      rw [if_pos hz, if_pos hz]
      simp
    · simp only [gzBranchReadAll, gzipNewReaderErr]
      rw [if_neg hz, if_pos hlen, if_neg hz]
      simp
  · intro payload ck hck
    have hhdr : gzipNewReaderErr (gzipHeaderBytes ++ payload ++ [ck]) = none := by
      simp only [gzipNewReaderErr]
      rw [if_neg (by simp [gzipHeaderBytes]),
        if_neg (by simp [gzipHeaderBytes]),
        if_pos (by simp [gzipHeaderBytes])]
    have hbody : (gzipHeaderBytes ++ payload ++ [ck]).drop 10 = payload ++ [ck] := by
      simp [gzipHeaderBytes]
    simp only [gzBranchReadAll, hhdr, gzipReadAll, hbody, List.getLast?_concat,
      List.dropLast_concat]
    rw [if_neg hck]

/-- Claim C5, witness: the amended theorem applied to the payload `hi`
(round trip), to a 10-byte plain text that begins with no gzip magic
(fallback), and to a corrupt body after a valid header. -/
theorem claim_c5_witness :
    gzBranchReadAll (gzipCompress [104, 105]) = Except.ok [104, 105] ∧
    gzBranchReadAll [116, 101, 115, 116, 32, 100, 97, 116, 97, 33] =
      Except.ok [116, 101, 115, 116, 32, 100, 97, 116, 97, 33] ∧
    gzBranchReadAll (gzipHeaderBytes ++ [7] ++ [0]) = Except.error GErr.gzipChecksum := by
  refine ⟨claim_c5_amended.1 _, ?_, ?_⟩
  · exact claim_c5_amended.2.1 _ (by decide) (by decide)
  · exact claim_c5_amended.2.2.2 [7] 0 (by decide)

/-- Claim C6, counterexample.  The claim says a line whose length equals
`maxBufferSize` exactly is emitted successfully.  With
`initialBufferSize = 4`, `maxBufferSize = 8`, and an input consisting of
one newline-terminated line of exactly 8 bytes, `bufio.Scanner` fills its
buffer (which never exceeds the max token size) with the 8 line bytes,
cannot find the delimiter, and fails with `bufio.ErrTooLong`: no line is
emitted. -/
theorem claim_c6_counterexample :
    readFileDen "f.txt"
        (Except.ok ⟨"text/plain", List.replicate 8 97 ++ [10], none, none⟩) 4 8
      = ⟨[], [GErr.tooLong]⟩ ∧
    ¬ claimC6ExactMax 4 8 (List.replicate 8 97) := by
  constructor
  · decide
  · unfold claimC6ExactMax
    decide

/-- A window containing no newline byte scans to `none`. -/
theorem findNewline_eq_none (w : List Nat) (h : ∀ x ∈ w, x ≠ 10) : findNewline w = none := by
  induction w with
  | nil => rfl
  | cons a as ih =>
    have ha : a ≠ 10 := h a (List.mem_cons_self a as)
    simp only [findNewline, if_neg ha, ih (fun x hx => h x (List.mem_cons_of_mem a hx))]
    rfl

/-- Appending the newline byte to a newline-free line puts the first
newline exactly at the line length. -/
theorem findNewline_append_nl (line : List Nat) (h : ∀ x ∈ line, x ≠ 10) :
    findNewline (line ++ [10]) = some line.length := by
  induction line with
  | nil => rfl
  | cons a as ih =>
    have ha : a ≠ 10 := h a (List.mem_cons_self a as)
    simp only [List.cons_append, findNewline, if_neg ha, List.append_eq,
      ih (fun x hx => h x (List.mem_cons_of_mem a hx))]
    rfl

/-- Once the window and the input are both empty at `io.EOF`, the scan
loop terminates cleanly within two more iterations. -/
theorem scanGo_drain (maxTok b : Nat) (hb : 1 ≤ b) (fuel : Nat) (hf : 2 ≤ fuel) :
    scanGo maxTok fuel ⟨b, [], [], GErr.eof, none⟩ = ([], ScanTerm.clean) := by
  obtain ⟨f, rfl⟩ : ∃ f, fuel = f + 2 := ⟨fuel - 2, by omega⟩
  obtain ⟨b', rfl⟩ : ∃ b', b = b' + 1 := ⟨b - 1, by omega⟩
  rw [scanGo]
  simp only [List.length_nil, Option.isSome_none, Bool.false_eq_true, or_self,
    Nat.lt_irrefl, false_or, if_false, or_false]
  rw [scanGo]
  simp [scanLinesGo]


/-- `bufio.ScanLines` requests more data on a newline-free window before
EOF. -/
theorem scanLinesGo_none_of_no_nl (w : List Nat) (hfn : findNewline w = none)
    (bb : Bool) (hb : bb = false) : scanLinesGo w bb = (0, none) := by
  subst hb
  simp [scanLinesGo, hfn]

/-- `bufio.ScanLines` on a full newline-terminated line consumes the line
and the delimiter and emits the line with a trailing carriage return
stripped. -/
theorem scanLinesGo_nl (line : List Nat) (hnl : ∀ x ∈ line, x ≠ 10)
    (bb : Bool) (hb : bb = false) :
    scanLinesGo (line ++ [10]) bb = (line.length + 1, some (dropCRmodel line)) := by
  subst hb
  simp only [scanLinesGo, findNewline_append_nl line hnl, Bool.false_eq_true, false_and,
    if_false]
  rw [List.take_append_of_le_length (le_refl _), List.take_length]

/-- Core boundary lemma for the scan loop, by induction on fuel: with
the window holding the first `j` bytes of a single newline-terminated
line, buffer capacity `b` between `j` and the max token size, and enough
fuel, the session emits the line (carriage return stripped) exactly when
the line is shorter than the max token size, and otherwise fails with
`bufio.ErrTooLong`. -/
theorem scanGo_line (maxTok : Nat) (line : List Nat) (hnl : ∀ x ∈ line, x ≠ 10) :
    ∀ (fuel j b : Nat),
      line.length + 4 - j ≤ fuel →
      j ≤ line.length + 1 →
      j ≤ b →
      b ≤ maxTok →
      scanGo maxTok fuel
          ⟨b, (line ++ [10]).take j, (line ++ [10]).drop j, GErr.eof, none⟩ =
        if line.length < maxTok then ([dropCRmodel line], ScanTerm.clean)
        else ([], ScanTerm.fail GErr.tooLong) := by
  intro fuel
  induction fuel with
  | zero =>
    intro j b hfuel hj hjb hbm
    omega
  | succ f ih =>
    intro j b hfuel hj hjb hbm
    by_cases hjL : j ≤ line.length
    · -- fill phase: the window holds only line bytes, no newline yet
      have hwin : (line ++ [10]).take j = line.take j := List.take_append_of_le_length hjL
      have hfn : findNewline (line.take j) = none :=
        findNewline_eq_none _ (fun x hx => hnl x (List.take_subset j line hx))
      have hwlen : (line.take j).length = j := by
        rw [List.length_take]
        exact Nat.min_eq_left hjL
      have hdropne : (line ++ [10]).drop j ≠ [] := by
        rw [ne_eq, List.drop_eq_nil_iff, List.length_append]
        simp
        omega
      obtain ⟨x, xs, hx⟩ : ∃ x xs, (line ++ [10]).drop j = x :: xs := by
        cases hc : (line ++ [10]).drop j with
        | nil => exact absurd hc hdropne
        | cons y ys => exact ⟨y, ys, rfl⟩
      have hval : (if 0 < (line.take j).length ∨ (none : Option GErr).isSome = true
          then scanLinesGo (line.take j) ((none : Option GErr).isSome)
          else ((0 : Nat), (none : Option (List Nat)))) = ((0 : Nat), none) := by
        by_cases hc : 0 < (line.take j).length ∨ (none : Option GErr).isSome = true
        · rw [if_pos hc]
          exact scanLinesGo_none_of_no_nl _ hfn _ (by simp)
        · rw [if_neg hc]
      rw [scanGo, hwin, hx]
      split
      · -- a token from the window is impossible: no newline buffered, not at EOF
        rename_i adv tok heq
        exact absurd (hval.symm.trans heq) (by simp)
      · rename_i fst heq
        dsimp only
        rw [hwlen]
        by_cases hfull : j = b ∧ maxTok ≤ b
        · rw [if_pos hfull, if_neg (by omega : ¬ line.length < maxTok)]
        · rw [if_neg hfull]
          have hxslen : xs.length + 1 = line.length + 1 - j := by
            have hc := congrArg List.length hx
            rw [List.length_drop, List.length_append] at hc
            simp at hc
            omega
          have hNL : j < (if j = b then min (if b = 0 then 4096 else 2 * b) maxTok else b) := by
            by_cases hjb2 : j = b
            · rw [if_pos hjb2]
              have hbm2 : ¬ maxTok ≤ b := fun hc => hfull ⟨hjb2, hc⟩
              by_cases hb0 : b = 0
              · rw [if_pos hb0]
                omega
              · rw [if_neg hb0]
                omega
            · rw [if_neg hjb2]
              omega
          have hNLm : (if j = b then min (if b = 0 then 4096 else 2 * b) maxTok else b)
              ≤ maxTok := by
            by_cases hjb2 : j = b
            · rw [if_pos hjb2]
              omega
            · rw [if_neg hjb2]
              omega
          rw [← hx, ← hwin, ← List.take_add, List.drop_drop]
          have hdl : (List.drop j (line ++ [10])).length = line.length + 1 - j := by
            rw [List.length_drop, List.length_append, List.length_singleton]
          generalize hNLdef : (if j = b then min (if b = 0 then 4096 else 2 * b) maxTok else b) = NL at hNL hNLm ⊢
          have hm1 : min (NL - j) ((List.drop j (line ++ [10])).length) ≤ NL - j :=
            min_le_left _ _
          have hm2 : min (NL - j) ((List.drop j (line ++ [10])).length)
              ≤ (List.drop j (line ++ [10])).length :=
            min_le_right _ _
          have hm3 : 1 ≤ min (NL - j) ((List.drop j (line ++ [10])).length) :=
            le_min (by omega) (by omega)
          refine ih _ _ ?_ ?_ ?_ ?_ <;> omega
    · -- the newline has entered the window: emit the token, then drain
      have hj1 : j = line.length + 1 := by omega
      subst hj1
      have hw : (line ++ [10]).take (line.length + 1) = line ++ [10] := by
        rw [show line.length + 1 = (line ++ [10]).length by simp, List.take_length]
      have hd : (line ++ [10]).drop (line.length + 1) = [] := by
        apply List.drop_eq_nil_of_le
        simp
      have hval : (if 0 < (line ++ [10]).length ∨ (none : Option GErr).isSome = true
          then scanLinesGo (line ++ [10]) ((none : Option GErr).isSome)
          else ((0 : Nat), (none : Option (List Nat))))
          = (line.length + 1, some (dropCRmodel line)) := by
        rw [if_pos (Or.inl (by simp))]
        exact scanLinesGo_nl line hnl _ (by simp)
      rw [scanGo, hw, hd]
      split
      · rename_i adv tok heq
        have htk := hval.symm.trans heq
        simp only [Prod.mk.injEq, Option.some.injEq] at htk
        obtain ⟨hadv, htok⟩ := htk
        subst hadv
        subst htok
        dsimp only
        rw [hd, scanGo_drain maxTok b (by omega) f (by omega)]
        rw [if_pos (by omega : line.length < maxTok)]
      · rename_i fst heq
        exact absurd (hval.symm.trans heq) (by simp)

/-- A `.txt` filename takes the pass-through branch of `GetFileReader`. -/
theorem readDecoded_txt (body : List Nat) : readDecoded "f.txt" body = Except.ok body := rfl

/-- A whole scanner session over one newline-terminated, newline-free
line: success (with the line emitted, trailing carriage return stripped)
exactly when the line length is below the max token size, else
`bufio.ErrTooLong`.  The default fuel of `scanAll` suffices. -/
theorem scanAll_single_line (b maxTok : Nat) (line : List Nat)
    (hnl : ∀ x ∈ line, x ≠ 10) (hb : b ≤ maxTok) :
    scanAll b maxTok (line ++ [10]) GErr.eof =
      if line.length < maxTok then ([dropCRmodel line], ScanTerm.clean)
      else ([], ScanTerm.fail GErr.tooLong) := by
  have h := scanGo_line maxTok line hnl (2 * (line ++ [10]).length + 8) 0 b
    (by simp only [List.length_append, List.length_singleton]; omega)
    (by omega) (by omega) hb
  simpa [scanAll] using h

/-- Claim C6, amended: for every `initialBufferSize ≤ maxBufferSize` and
every newline-free line content, `ReadFile`'s success boundary is
`maxBufferSize - 1`, not `maxBufferSize`: a newline-terminated line of
fewer than `maxBufferSize` bytes is emitted successfully (with a
trailing carriage return stripped, as `scanner.Text` via `dropCR` does),
while a line of `maxBufferSize` bytes or more (so also one of
`maxBufferSize + 1` bytes) terminates the stream with the distinguished
`bufio.ErrTooLong`, which is a dedicated error value distinguishable
from generic scan errors. -/
theorem claim_c6_amended :
    (∀ (initialBufferSize maxBufferSize : Nat) (line : List Nat),
      initialBufferSize ≤ maxBufferSize →
      (∀ x ∈ line, x ≠ 10) →
      readFileDen "f.txt"
          (Except.ok ⟨"text/plain", line ++ [10], none, none⟩)
          initialBufferSize maxBufferSize
        = if line.length < maxBufferSize
          then ⟨[bytesToStr (dropCRmodel line)], []⟩
          else ⟨[], [GErr.tooLong]⟩) ∧
    (∀ s : String, GErr.tooLong ≠ GErr.msg s) := by
  constructor
  · intro ib mb line hle hnl
    have h := scanAll_single_line ib mb line hnl hle
    by_cases hlt : line.length < mb
    · rw [if_pos hlt] at h ⊢
      simp only [readFileDen, readDecoded_txt, h]
      rfl
    · rw [if_neg hlt] at h ⊢
      simp only [readFileDen, readDecoded_txt, h]
      rfl
  · intro s h
    exact GErr.noConfusion h

/-- Claim C6, witness: the amended theorem applied at
`initialBufferSize = 4`, `maxBufferSize = 8` with line lengths 7
(success, one byte under the cap) and 9 (the claim's
`maxBufferSize + 1` case, `bufio.ErrTooLong`). -/
theorem claim_c6_witness :
    readFileDen "f.txt"
        (Except.ok ⟨"text/plain", List.replicate 7 97 ++ [10], none, none⟩) 4 8
      = ⟨[bytesToStr (dropCRmodel (List.replicate 7 97))], []⟩ ∧
    readFileDen "f.txt"
        (Except.ok ⟨"text/plain", List.replicate 9 97 ++ [10], none, none⟩) 4 8
      = ⟨[], [GErr.tooLong]⟩ :=
  ⟨(claim_c6_amended.1 4 8 (List.replicate 7 97) (by decide)
      (fun x hx => by
        have := List.eq_of_mem_replicate hx
        omega)).trans (by decide),
   (claim_c6_amended.1 4 8 (List.replicate 9 97) (by decide)
      (fun x hx => by
        have := List.eq_of_mem_replicate hx
        omega)).trans (by decide)⟩

/-- Claim C8, counterexample.  The claim says stream-close failures
during cleanup are logged, never escalated through the error-reporting
path.  But after a clean fetch, decode and scan, a failing `Body.Close()`
is SENT on the error channel by the deferred close of both `ReadFile`
(client.go lines 142-151) and the `ReadFiles` per-key task (part_000
lines 187-195): the error path differs from the run with a clean
close. -/
theorem claim_c8_counterexample :
    (processFile "b" "f.txt"
        (Except.ok ⟨"text/plain", [104, 10], some (GErr.msg "close failed"), none⟩)
        (fun n => n)).errsSent = [GErr.msg "close failed"] ∧
    (readFileDen "f.txt"
        (Except.ok ⟨"text/plain", [104, 10], some (GErr.msg "close failed"), none⟩)
        4 8).errsSent = [GErr.msg "close failed"] ∧
    ¬ claimC8CloseNeverEscalated := by
  refine ⟨by decide, by decide, fun h => ?_⟩
  have h1 := h.1 "b" "f.txt"
    ⟨"text/plain", [104, 10], some (GErr.msg "close failed"), none⟩ (fun n => n)
  exact absurd h1 (by decide)

/-- Claim C8, amended: only the decoded-reader close failure in a
`ReadFiles` per-key task is merely logged (it never changes the error
channel traffic); a body-close failure is sent on the error channel by
both `ReadFile` and the `ReadFiles` per-key task, and a reader-close
failure after a successful decode is sent by `ReadFile` as well. -/
theorem claim_c8_amended :
    (∀ bucket filename : String, ∀ obj : S3Object, ∀ clock : Nat → Nat,
      (processFile bucket filename (Except.ok obj) clock).errsSent =
        (processFile bucket filename
          (Except.ok { obj with readerCloseErr := none }) clock).errsSent) ∧
    (∀ bucket filename : String, ∀ obj : S3Object, ∀ clock : Nat → Nat, ∀ e : GErr,
      obj.bodyCloseErr = some e →
      e ∈ (processFile bucket filename (Except.ok obj) clock).errsSent) ∧
    (∀ filename : String, ∀ obj : S3Object, ∀ ib mb : Nat, ∀ e : GErr,
      obj.bodyCloseErr = some e →
      e ∈ (readFileDen filename (Except.ok obj) ib mb).errsSent) ∧
    (∀ filename : String, ∀ obj : S3Object, ∀ ib mb : Nat, ∀ e : GErr, ∀ d : List Nat,
      obj.readerCloseErr = some e →
      readDecoded filename obj.content = Except.ok d →
      e ∈ (readFileDen filename (Except.ok obj) ib mb).errsSent) := by
  refine ⟨?_, ?_, ?_, ?_⟩
  · intro bucket filename obj clock
    cases h : readDecoded filename obj.content with
    | error e => simp [processFile, h]
    | ok d => simp [processFile, h]
  · intro bucket filename obj clock e he
    cases h : readDecoded filename obj.content with
    | error e2 => simp [processFile, h, he]
    | ok d => simp [processFile, h, he]
  · intro filename obj ib mb e he
    cases h : readDecoded filename obj.content with
    | error e2 => simp [readFileDen, h, he]
    | ok d => simp [readFileDen, h, he]
  · intro filename obj ib mb e d he hd
    simp [readFileDen, hd, he]

/-- Claim C8, witness: the amended theorem applied to a one-line object
whose body close fails in a `ReadFiles` task, and to one whose decoded
reader close fails in `ReadFile`. -/
theorem claim_c8_witness :
    GErr.msg "bc" ∈ (processFile "b" "f.txt"
      (Except.ok ⟨"t", [104, 10], some (GErr.msg "bc"), none⟩) (fun n => n)).errsSent ∧
    GErr.msg "rc" ∈ (readFileDen "f.txt"
      (Except.ok ⟨"t", [104, 10], none, some (GErr.msg "rc")⟩) 4 8).errsSent :=
  ⟨claim_c8_amended.2.1 "b" "f.txt" _ (fun n => n) _ rfl,
   claim_c8_amended.2.2.2 "f.txt" _ 4 8 _ [104, 10] rfl (by rfl)⟩

theorem msgsFromToks_get? (clock : Nat → Nat) (bucket file : String) :
    ∀ (toks : List (List Nat)) (j i : Nat),
      (msgsFromToks clock bucket file j toks).get? i =
        (toks.get? i).map
          (fun tok => ⟨clock (j + i), mkMessageRecord bucket file (bytesToStr tok)⟩) := by
  intro toks
  induction toks with
  | nil => intro j i; simp [msgsFromToks]
  | cons t rest ih =>
    intro j i
    cases i with
    | zero => simp [msgsFromToks]
    | succ k =>
      simp only [msgsFromToks, List.get?_cons_succ, ih (j + 1) k]
      have : j + 1 + k = j + (k + 1) := by omega
      rw [this]

theorem processFile_msgs (bucket filename : String) (fetch : Except GErr S3Object)
    (clock : Nat → Nat) :
    (processFile bucket filename fetch clock).msgs =
      msgsFromToks clock bucket filename 0 (taskToks filename fetch) := by
  cases fetch with
  | error e => simp [processFile, taskToks, msgsFromToks]
  | ok obj =>
    cases h : readDecoded filename obj.content with
    | error e => simp [processFile, taskToks, h, msgsFromToks]
    | ok d => simp [processFile, taskToks, h]

/-- Claim C10, confirmed: every value sent to the output channel by a
`ReadFiles` per-key task is a `Message` whose `Time` is the capture
timestamp taken at that emission (the clock at the emission index) and
whose `Record` is a map holding exactly the three keys `_raw` (the line
text), `bucket` (the source bucket) and `file` (the object key), in that
order and with no other keys. -/
theorem claim_c10_message_shape (bucket filename : String) (fetch : Except GErr S3Object)
    (clock : Nat → Nat) (i : Nat) (m : Message)
    (hm : (processFile bucket filename fetch clock).msgs.get? i = some m) :
    ∃ tok, (taskToks filename fetch).get? i = some tok ∧
      m.time = clock i ∧
      m.record = [("_raw", bytesToStr tok), ("bucket", bucket), ("file", filename)] ∧
      m.record.map Prod.fst = ["_raw", "bucket", "file"] := by
  rw [processFile_msgs, msgsFromToks_get?] at hm
  cases htok : (taskToks filename fetch).get? i with
  | none => rw [htok] at hm; simp at hm
  | some tok =>
    rw [htok] at hm
    have hm2 : Message.mk (clock (0 + i)) (mkMessageRecord bucket filename (bytesToStr tok)) = m :=
      Option.some.inj hm
    refine ⟨tok, rfl, ?_, ?_, ?_⟩
    · rw [← hm2]; simp
    · rw [← hm2]; simp [mkMessageRecord]
    · rw [← hm2]; simp [mkMessageRecord]

/-- Claim C10, witness: the theorem applied to a one-line object, whose
single message carries time 0 and exactly the three record keys. -/
theorem claim_c10_witness :
    ∃ tok, (taskToks "f.txt" (Except.ok ⟨"t", [104, 105, 10], none, none⟩)).get? 0 = some tok ∧
      (Message.mk 0 [("_raw", "hi"), ("bucket", "b"), ("file", "f.txt")]).time = (fun n => n) 0 ∧
      (Message.mk 0 [("_raw", "hi"), ("bucket", "b"), ("file", "f.txt")]).record =
        [("_raw", bytesToStr tok), ("bucket", "b"), ("file", "f.txt")] ∧
      (Message.mk 0 [("_raw", "hi"), ("bucket", "b"), ("file", "f.txt")]).record.map Prod.fst =
        ["_raw", "bucket", "file"] :=
  claim_c10_message_shape "b" "f.txt" (Except.ok ⟨"t", [104, 105, 10], none, none⟩)
    (fun n => n) 0 ⟨0, [("_raw", "hi"), ("bucket", "b"), ("file", "f.txt")]⟩ (by decide)

theorem listAndMatch_ok_then_error (matchFn : String → Bool) (e : GErr)
    (rest : List (Except GErr (List String))) :
    ∀ (okPages : List (List String)) (acc : List String),
      listAndMatch matchFn (okPages.map Except.ok ++ Except.error e :: rest) acc
        = (acc ++ (okPages.map (fun p => p.filter matchFn)).flatten, some e) := by
  intro okPages
  induction okPages with
  | nil => intro acc; simp [listAndMatch]
  | cons p ps ih =>
    intro acc
    have hsplit : (p :: ps).map Except.ok ++ Except.error e :: rest
        = Except.ok p :: (ps.map Except.ok ++ Except.error e :: rest) := by simp
    rw [hsplit]
    simp only [listAndMatch]
    rw [ih]
    simp [List.append_assoc]

/-- Claim C2, counterexample.  A failing second page makes `ListFiles`
return the matches accumulated from the first page ALONGSIDE the wrapped
error — partial results are not discarded — and the wrapping context is
the constant `error listing files from s3: `, which mentions neither the
bucket `mybucket` nor the pattern `a.txt`. -/
theorem claim_c2_counterexample :
    ListFilesModel (fun _ _ => some false) "a.txt"
        [Except.ok ["a.txt", "b.log"], Except.error (GErr.msg "cannot retrieve objects"),
          Except.ok ["c.txt"]]
      = (["a.txt"], some (GErr.wrapped listingWrapMsg (GErr.msg "cannot retrieve objects"))) ∧
    errMentions (GErr.wrapped listingWrapMsg (GErr.msg "cannot retrieve objects"))
        "mybucket" = false ∧
    errMentions (GErr.wrapped listingWrapMsg (GErr.msg "cannot retrieve objects"))
        "a.txt" = false ∧
    ¬ claimC2AllOrNothing := by
  refine ⟨by decide, by decide, by decide, fun h => ?_⟩
  have h2 := h (fun _ _ => some false) "mybucket" "a.txt"
    [Except.ok ["a.txt", "b.log"], Except.error (GErr.msg "cannot retrieve objects"),
      Except.ok ["c.txt"]] (by decide)
  exact absurd h2.1 (by decide)

/-- Claim C2, amended: when a listing page fetch fails, `ListFiles`
returns immediately — pages after the failing one are never consulted —
with the page error wrapped in the static context
`error listing files from s3: ` (no bucket or pattern in the context),
and the matches accumulated from the pages before the failure are
returned alongside the error rather than discarded. -/
theorem claim_c2_amended (patMatch : String → String → Option Bool) (pattern : String)
    (okPages : List (List String)) (e : GErr) (rest : List (Except GErr (List String))) :
    ListFilesModel patMatch pattern (okPages.map Except.ok ++ Except.error e :: rest)
      = ((okPages.map (fun p => p.filter (listMatcher patMatch pattern))).flatten,
         some (GErr.wrapped listingWrapMsg e)) := by
  unfold ListFilesModel
  rw [listAndMatch_ok_then_error]
  simp

theorem step_from_init (sc1 : TaskScript) (rest : List TaskScript) (cap : Nat) (s' : RFSt)
    (h : Step (initRF (sc1 :: rest) cap) s') :
    s' = { initRF (sc1 :: rest) cap with idx := 1, tasks := [startTask sc1] } := by
  cases h with
  | spawn sc hph hget hcap =>
    have hsc : sc1 = sc := by simpa [initRF] using hget
    subst hsc
    rfl
  | endSpawn hph hidx => simp [initRF] at hidx
  | emit i t hget hfin hpos => simp [initRF] at hget
  | errSend i t e' rest' hph hget hfin hem herrs => simp [initRF] at hph
  | finish i t hget hfin hem herrs => simp [initRF] at hget
  | doneRecv hph hidx hall => simp [initRF] at hph

theorem stuck_early_error (e : GErr) (es : List GErr) (sc2 : TaskScript)
    (more : List TaskScript) (s' : RFSt)
    (h : Step (stuckRF (⟨0, e :: es⟩ :: sc2 :: more) ⟨0, e :: es⟩) s') : False := by
  cases h with
  | spawn sc hph hget hcap =>
    have hone : inFlight (stuckRF (⟨0, e :: es⟩ :: sc2 :: more) ⟨0, e :: es⟩) = 1 := by
      simp [inFlight, stuckRF, initRF, startTask]
    rw [hone] at hcap
    have hc : (stuckRF (⟨0, e :: es⟩ :: sc2 :: more) ⟨0, e :: es⟩).cap = 1 := rfl
    rw [hc] at hcap
    exact absurd hcap (by omega)
  | endSpawn hph hidx =>
    simp [stuckRF, initRF] at hidx
  | emit i t hget hfin hpos =>
    cases i with
    | zero =>
      have ht : t = ⟨0, e :: es, false⟩ := by
        have h2 : some (⟨0, e :: es, false⟩ : TaskSt) = some t := by
          simpa [stuckRF, initRF, startTask] using hget
        exact (Option.some.inj h2).symm
      rw [ht] at hpos
      exact absurd hpos (by simp)
    | succ n => simp [stuckRF, initRF] at hget
  | errSend i t e' rest' hph hget hfin hem herrs => simp [stuckRF, initRF] at hph
  | finish i t hget hfin hem herrs =>
    cases i with
    | zero =>
      have ht : t = ⟨0, e :: es, false⟩ := by
        have h2 : some (⟨0, e :: es, false⟩ : TaskSt) = some t := by
          simpa [stuckRF, initRF, startTask] using hget
        exact (Option.some.inj h2).symm
      rw [ht] at herrs
      simp at herrs
    | succ n => simp [stuckRF, initRF] at hget
  | doneRecv hph hidx hall => simp [stuckRF, initRF] at hph

theorem reach_early_error (e : GErr) (es : List GErr) (sc2 : TaskScript)
    (more : List TaskScript) :
    ∀ s, Reach (initRF (⟨0, e :: es⟩ :: sc2 :: more) 1) s →
      s = initRF (⟨0, e :: es⟩ :: sc2 :: more) 1 ∨
      s = stuckRF (⟨0, e :: es⟩ :: sc2 :: more) ⟨0, e :: es⟩ := by
  intro s h
  induction h with
  | refl => exact Or.inl rfl
  | tail hab hbc ih =>
    rcases ih with h1 | h1
    · rw [h1] at hbc
      right
      rw [step_from_init _ _ _ _ hbc]
      rfl
    · rw [h1] at hbc
      exact absurd hbc (fun hh => stuck_early_error _ _ _ _ _ hh)

/-- Claim C9, code bug: the coordinator can fail to learn that tasks are
terminal.  In the two-key scenario `files9` (first fetch fails) under
concurrency 1, after the only possible first step — admitting and
spawning the failing task — the system is deadlocked: the main goroutine
is blocked acquiring the admission slot for the second key (so its
`select` loop, the only receiver of `errChan`, never runs), while the
first task is blocked sending its fetch error on `errChan` and so never
releases its slot.  No reachable state of the run has `ReadFiles`
returned: the call never completes, successfully or otherwise. -/
theorem claim_c9_never_returns (s : RFSt) (h : Reach (initRF files9 1) s) :
    ∀ r : Option GErr, s.phase ≠ MainPhase.returned r := by
  have h9 : files9 = ⟨0, [fetchFailErr]⟩ :: (⟨1, []⟩ : TaskScript) :: [] := by decide
  rw [h9] at h
  rcases reach_early_error fetchFailErr [] ⟨1, []⟩ [] s h with h1 | h1 <;>
    · rw [h1]
      intro r
      simp [initRF, stuckRF]

/-- Claim C9, witness: the never-returns theorem applied to the initial
state of the `files9` run (reachable by the empty execution). -/
theorem claim_c9_witness :
    (initRF files9 1).phase ≠ MainPhase.returned none :=
  claim_c9_never_returns (initRF files9 1) Relation.ReflTransGen.refl none

/-- Claim C7, code bug: best-effort batch semantics break down under the
admission-gate deadlock.  In the three-key scenario `files7` (one key
fails its fetch) under concurrency 1, every reachable state still has the
batch unreturned — so `ReadFiles` never returns nil — and at most the
failing key's task was ever spawned, so not a single line of the two
healthy keys is ever emitted. -/
theorem claim_c7_batch_deadlock (s : RFSt) (h : Reach (initRF files7 1) s) :
    (∀ r : Option GErr, s.phase ≠ MainPhase.returned r) ∧ s.tasks.length ≤ 1 := by
  have h7 : files7 = ⟨0, [fetchFailErr]⟩ :: (⟨1, []⟩ : TaskScript) :: [⟨1, []⟩] := by decide
  rw [h7] at h
  rcases reach_early_error fetchFailErr [] ⟨1, []⟩ [⟨1, []⟩] s h with h1 | h1 <;>
    · rw [h1]
      refine ⟨fun r => ?_, ?_⟩
      · simp [initRF, stuckRF]
      · simp [initRF, stuckRF]

/-- Claim C7, witness: the theorem applied to the initial state of the
`files7` run (reachable by the empty execution). -/
theorem claim_c7_witness :
    (initRF files7 1).phase ≠ MainPhase.returned none ∧
    (initRF files7 1).tasks.length ≤ 1 :=
  ⟨(claim_c7_batch_deadlock (initRF files7 1) Relation.ReflTransGen.refl).1 none,
   (claim_c7_batch_deadlock (initRF files7 1) Relation.ReflTransGen.refl).2⟩

theorem length_filter_set_le {α : Type} (p : α → Bool) (l : List α) :
    ∀ (i : Nat) (t t' : α), l.get? i = some t → (p t' = true → p t = true) →
      ((l.set i t').filter p).length ≤ (l.filter p).length := by
  induction l with
  | nil => intro i t t' h _; simp at h
  | cons a as ih =>
    intro i t t' h himp
    cases i with
    | zero =>
      have ha : a = t := by simpa using h
      subst ha
      simp only [List.set_cons_zero, List.filter_cons]
      by_cases hp' : p t' = true
      · rw [if_pos (himp hp'), if_pos hp']
        simp
      · have hf : p t' = false := by simpa using hp'
        rw [hf]
        simp only [Bool.false_eq_true, if_false]
        cases hpa : p a
        · simp
        · simp

    | succ n =>
      simp only [List.set_cons_succ, List.filter_cons]
      have hn : as.get? n = some t := by simpa using h
      cases hpa : p a
      · simpa using ih n t t' hn himp
      · simpa using Nat.succ_le_succ (ih n t t' hn himp)

theorem set_append_last {α : Type} (l : List α) (a b : α) :
    (l ++ [a]).set l.length b = l ++ [b] := by
  induction l with
  | nil => rfl
  | cons x xs ih => simp [List.set_cons_succ, ih]

theorem set_append_last' {α : Type} (l : List α) (a b : α) (i : Nat) (h : i = l.length) :
    (l ++ [a]).set i b = l ++ [b] := by
  subst h
  exact set_append_last l a b

theorem step_preserves_inv (s s' : RFSt) (h : Step s s')
    (h1 : inFlight s ≤ s.cap) (h2 : s.tasks.length = s.idx) (h3 : s.idx ≤ s.files.length) :
    (inFlight s' ≤ s'.cap ∧ s'.tasks.length = s'.idx ∧ s'.idx ≤ s'.files.length)
      ∧ s'.cap = s.cap ∧ s'.files = s.files := by
  cases h with
  | spawn sc hph hget hcap =>
    refine ⟨⟨?_, ?_, ?_⟩, rfl, rfl⟩
    · have hf : inFlight { s with idx := s.idx + 1, tasks := s.tasks ++ [startTask sc] }
          = inFlight s + 1 := by
        simp [inFlight, List.filter_append, startTask]
      rw [hf]
      exact hcap
    · simp [h2]
    · have hlt : s.idx < s.files.length := by
        by_contra hle
        push_neg at hle
        rw [List.get?_eq_none.mpr hle] at hget
        exact Option.noConfusion hget
      simpa using hlt
  | endSpawn hph hidx => exact ⟨⟨h1, h2, h3⟩, rfl, rfl⟩
  | emit i t hget hfin hpos =>
    refine ⟨⟨?_, ?_, ?_⟩, rfl, rfl⟩
    · exact le_trans
        (length_filter_set_le (fun u => !u.finished) s.tasks i t
          { t with emits := t.emits - 1 } hget (fun hh => by simpa using hh)) h1
    · simpa using h2
    · exact h3
  | errSend i t e' rest' hph hget hfin hem herrs =>
    refine ⟨⟨?_, ?_, ?_⟩, rfl, rfl⟩
    · exact le_trans
        (length_filter_set_le (fun u => !u.finished) s.tasks i t
          { t with errs := rest' } hget (fun hh => by simpa using hh)) h1
    · simpa using h2
    · exact h3
  | finish i t hget hfin hem herrs =>
    refine ⟨⟨?_, ?_, ?_⟩, rfl, rfl⟩
    · refine le_trans
        (length_filter_set_le (fun u => !u.finished) s.tasks i t
          { t with finished := true } hget ?_) h1
      intro hh
      simp at hh
    · simpa using h2
    · exact h3
  | doneRecv hph hidx hall => exact ⟨⟨h1, h2, h3⟩, rfl, rfl⟩

theorem reach_inv (files : List TaskScript) (cap : Nat) (s : RFSt)
    (h : Reach (initRF files cap) s) :
    (inFlight s ≤ cap ∧ s.tasks.length = s.idx ∧ s.idx ≤ files.length)
      ∧ s.cap = cap ∧ s.files = files := by
  induction h with
  | refl =>
    refine ⟨⟨?_, ?_, ?_⟩, rfl, rfl⟩ <;> simp [inFlight, initRF]
  | tail hab hbc ih =>
    obtain ⟨⟨i1, i2, i3⟩, hcap, hfiles⟩ := ih
    obtain ⟨⟨j1, j2, j3⟩, jcap, jfiles⟩ :=
      step_preserves_inv _ _ hbc (hcap ▸ i1) i2 (hfiles ▸ i3)
    refine ⟨⟨?_, j2, ?_⟩, jcap.trans hcap, jfiles.trans hfiles⟩
    · rw [jcap, hcap] at j1; exact j1
    · rw [jfiles, hfiles] at j3; exact j3

theorem run_task (i : Nat) : ∀ (n : Nat) (files : List TaskScript) (cap idx : Nat)
    (tasks : List TaskSt) (ph : MainPhase),
    tasks.get? i = some ⟨n, [], false⟩ →
    Reach ⟨files, cap, idx, tasks, ph⟩ ⟨files, cap, idx, tasks.set i doneTask, ph⟩ := by
  intro n
  induction n with
  | zero =>
    intro files cap idx tasks ph h
    exact Relation.ReflTransGen.single
      (Step.finish ⟨files, cap, idx, tasks, ph⟩ i ⟨0, [], false⟩ h rfl rfl rfl)
  | succ m ih =>
    intro files cap idx tasks ph h
    obtain ⟨hlt, _⟩ := List.get?_eq_some.mp h
    have hstep : Step ⟨files, cap, idx, tasks, ph⟩
        ⟨files, cap, idx, tasks.set i ⟨m, [], false⟩, ph⟩ :=
      Step.emit ⟨files, cap, idx, tasks, ph⟩ i ⟨m + 1, [], false⟩ h rfl (Nat.succ_pos m)
    have hget2 : (tasks.set i ⟨m, [], false⟩).get? i = some ⟨m, [], false⟩ := by
      rw [List.get?_eq_getElem?]
      exact List.getElem?_set_eq_of_lt (⟨m, [], false⟩ : TaskSt) hlt
    have h2 := ih files cap idx (tasks.set i ⟨m, [], false⟩) ph hget2
    rw [List.set_set] at h2
    exact Relation.ReflTransGen.head hstep h2

theorem reach_mid (files : List TaskScript) (herrs : ∀ sc ∈ files, sc.errs = []) :
    ∀ k, k ≤ files.length → Reach (initRF files 1) (midRF files k) := by
  intro k
  induction k with
  | zero =>
    intro _
    exact Relation.ReflTransGen.refl
  | succ m ih =>
    intro hle
    have hm : m ≤ files.length := Nat.le_of_succ_le hle
    obtain ⟨sc, hsc⟩ : ∃ sc, files.get? m = some sc := by
      cases hg : files.get? m with
      | none =>
        rw [List.get?_eq_none] at hg
        omega
      | some sc => exact ⟨sc, rfl⟩
    have hspawn : Step (midRF files m)
        ⟨files, 1, m + 1, List.replicate m doneTask ++ [startTask sc], MainPhase.spawning⟩ := by
      refine Step.spawn _ sc rfl ?_ ?_
      · simpa [midRF] using hsc
      · simp [inFlight, midRF, doneTask]
    have herr : sc.errs = [] := herrs sc (List.get?_mem hsc)
    have hget : (List.replicate m doneTask ++ [startTask sc]).get? m
        = some ⟨sc.emits, [], false⟩ := by
      rw [List.get?_eq_getElem?, List.getElem?_append_right (by simp)]
      simp [startTask, herr]
    have hrun := run_task m sc.emits files 1 (m + 1)
      (List.replicate m doneTask ++ [startTask sc]) MainPhase.spawning hget
    have hset : (List.replicate m doneTask ++ [startTask sc]).set m doneTask
        = List.replicate (m + 1) doneTask := by
      rw [set_append_last' (List.replicate m doneTask) (startTask sc) doneTask m (by simp),
        ← List.replicate_succ']
    rw [hset] at hrun
    exact (ih hm).trans (Relation.ReflTransGen.head hspawn hrun)

theorem reach_final (files : List TaskScript) (herrs : ∀ sc ∈ files, sc.errs = []) :
    Reach (initRF files 1) (finalRF files) := by
  have h1 := reach_mid files herrs files.length (le_refl _)
  have h2 : Step (midRF files files.length)
      { midRF files files.length with phase := MainPhase.selecting } :=
    Step.endSpawn _ rfl rfl
  have h3 : Step { midRF files files.length with phase := MainPhase.selecting }
      (finalRF files) := by
    refine Step.doneRecv _ rfl rfl ?_
    intro t ht
    have ht2 : t ∈ List.replicate files.length doneTask := ht
    rw [List.eq_of_mem_replicate ht2]
    rfl
  exact h1.trans (Relation.ReflTransGen.head h2 (Relation.ReflTransGen.single h3))

/-- Claim C1, counterexample.  The claim covers every requested
concurrency value at most zero, but the source only normalizes an exact
zero (`if concurrency == 0`): a negative value reaches
`make(chan struct{}, poolSize)` unchanged, which panics at run time
(`makechan: size out of range`), so the call does fail. -/
theorem claim_c1_counterexample :
    readFilesPoolSize (-1) = none ∧ ¬ claimC1CapNormalized := by
  refine ⟨by decide, fun h => ?_⟩
  have h2 := h (-1) (by decide)
  rw [(by decide : readFilesPoolSize (-1) = none)] at h2
  exact Option.noConfusion h2

/-- Claim C1, amended: a requested concurrency of exactly 0 is treated
as 1 (sequential).  Under capacity 1, in every reachable state of the
coordinator at most one per-key task is in flight and each supplied key
has been dispatched at most once, in order (`tasks.length = idx`); and
when every per-key task terminates without error there is a complete run
that dispatches every key exactly once and returns nil with every task's
messages fully emitted.  A negative requested value, by contrast, panics
(see the counterexample). -/
theorem claim_c1_amended :
    readFilesPoolSize 0 = some 1 ∧
    (∀ files : List TaskScript, ∀ s : RFSt, Reach (initRF files 1) s →
      inFlight s ≤ 1 ∧ s.tasks.length = s.idx ∧ s.idx ≤ files.length) ∧
    (∀ files : List TaskScript, (∀ sc ∈ files, sc.errs = []) →
      ∃ s : RFSt, Reach (initRF files 1) s ∧ s.phase = MainPhase.returned none ∧
        s.tasks.length = files.length ∧ ∀ t ∈ s.tasks, t.finished = true ∧ t.emits = 0) := by
  refine ⟨by decide, ?_, ?_⟩
  · intro files s h
    exact (reach_inv files 1 s h).1
  · intro files herrs
    refine ⟨finalRF files, reach_final files herrs, rfl, by simp [finalRF], ?_⟩
    intro t ht
    have ht2 : t ∈ List.replicate files.length doneTask := ht
    rw [List.eq_of_mem_replicate ht2]
    exact ⟨rfl, rfl⟩

/-- Claim C1, witness: the amended theorem applied to a one-key batch
whose task emits two messages and no error: the initial state respects
the in-flight bound, and a full sequential run returning nil exists. -/
theorem claim_c1_witness :
    readFilesPoolSize 0 = some 1 ∧
    inFlight (initRF [⟨2, []⟩] 1) ≤ 1 ∧
    (∃ s : RFSt, Reach (initRF [⟨2, []⟩] 1) s ∧ s.phase = MainPhase.returned none ∧
      s.tasks.length = ([⟨2, []⟩] : List TaskScript).length ∧
      ∀ t ∈ s.tasks, t.finished = true ∧ t.emits = 0) :=
  ⟨claim_c1_amended.1,
   (claim_c1_amended.2.1 [⟨2, []⟩] _ Relation.ReflTransGen.refl).1,
   claim_c1_amended.2.2 [⟨2, []⟩] (by decide)⟩

end S3Client
